import Mathlib

/-!
Verification of the MegaClient launch pipeline (src/src-tauri/src/main.rs)
against its natural-language specification.

Strings from the Rust source are modelled as lists of characters
(`Str := List Char`); Rust byte-oriented operations coincide with the
character-level model on the ASCII inputs that all claims use.
-/

namespace MegaClient

/-- Character-list model of Rust `&str` / `String`. -/
abbrev Str := List Char

/-- Whitespace test used by `str::trim`.  The Rust source uses Unicode
`White_Space`; the claims only involve ASCII, where this agrees. -/
def isWs (c : Char) : Bool :=
  c = ' ' || c = '\t' || c = '\n' || c = '\r' || c = Char.ofNat 11 || c = Char.ofNat 12

/-- Model of `str::trim_start`. -/
def trimLeft (l : Str) : Str := l.dropWhile isWs

/-- Model of `str::trim_end`. -/
def trimRight (l : Str) : Str := (l.reverse.dropWhile isWs).reverse

/-- Model of `str::trim`. -/
def trim (l : Str) : Str := trimRight (trimLeft l)

/-- Model of Rust `str::split(sep)` collected into a vector: splits on every
occurrence of the separator character, keeping empty fragments. -/
def splitOnChar (sep : Char) : Str → List Str
  | [] => [[]]
  | c :: rest =>
    if c = sep then [] :: splitOnChar sep rest
    else
      match splitOnChar sep rest with
      | h :: t => (c :: h) :: t
      | [] => [[c]]

/-- Model of Rust `str::split_once(sep)`: splits at the first occurrence of
the separator, or `none` when the separator is absent. -/
def splitOnceChar (sep : Char) : Str → Option (Str × Str)
  | [] => none
  | c :: rest =>
    if c = sep then some ([], rest)
    else
      match splitOnceChar sep rest with
      | some (a, b) => some (c :: a, b)
      | none => none

/-- Model of Rust `str::contains(char)`. -/
def containsChar (c : Char) (l : Str) : Bool := l.any (fun x => x = c)

/-- Model of Rust `str::contains(&str)` (substring search). -/
def containsSeq (needle : Str) : Str → Bool
  | [] => needle.isEmpty
  | c :: rest => needle.isPrefixOf (c :: rest) || containsSeq needle rest

/-- Model of Rust `str::starts_with(&str)`. -/
def startsWithStr (pre l : Str) : Bool := pre.isPrefixOf l

/-- Model of Rust `str::ends_with(&str)`. -/
def endsWithStr (suf l : Str) : Bool := suf.reverse.isPrefixOf l.reverse

/-- Decimal digit to character. -/
def digitChar (d : Nat) : Char := Char.ofNat (48 + d)

/-- Fuel-based digit emitter backing `natToStr`; the fuel `n + 1` always
suffices because a number has at most `n + 1` decimal digits. -/
def natToStrAux : Nat → Nat → Str
  | 0, _ => []
  | Nat.succ fuel, n =>
    if n < 10 then [digitChar n]
    else natToStrAux fuel (n / 10) ++ [digitChar (n % 10)]

/-- Decimal rendering of a natural number, as used by Rust `to_string`
and `format!` on unsigned integers. -/
def natToStr (n : Nat) : Str := natToStrAux (n + 1) n

/-- Numeric value of an ASCII decimal digit, if it is one. -/
def digitVal (c : Char) : Option Nat :=
  if '0' ≤ c ∧ c ≤ '9' then some (c.toNat - 48) else none

/-- Accumulating decimal parse of a digit string. -/
def parseDigits (l : Str) (acc : Nat) : Option Nat :=
  match l with
  | [] => some acc
  | c :: rest =>
    match digitVal c with
    | some d => parseDigits rest (acc * 10 + d)
    | none => none

/-- Model of Rust `str::parse::<uN>()` with bound `bound = 2^N`: an optional
leading `+`, then at least one decimal digit, rejecting values at or above
the bound (Rust errors on overflow). -/
def parseBoundedNat (bound : Nat) (l : Str) : Option Nat :=
  let digits := match l with
    | '+' :: rest => rest
    | other => other
  match digits with
  | [] => none
  | _ =>
    match parseDigits digits 0 with
    | some v => if v < bound then some v else none
    | none => none

/-- Model of `str::parse::<u32>()`. -/
def parseU32 (l : Str) : Option Nat := parseBoundedNat (2 ^ 32) l

/-- Model of `str::parse::<u16>()`. -/
def parseU16 (l : Str) : Option Nat := parseBoundedNat (2 ^ 16) l

/-!  §4.1 / C7: dotted version comparison (`mc_version_ge`, main.rs 767-787). -/

/-- The inner `parse` helper of `mc_version_ge`: split on `.`, require at
least two components, and parse every component as a `u32`. -/
def parseVersion (v : Str) : Option (List Nat) :=
  let parts := splitOnChar '.' v
  if parts.length < 2 then none
  else parts.mapM parseU32

/-- The indexed comparison loop of `mc_version_ge`: at each step the current
components are the heads of the remaining lists, missing components read as
zero; exhausting the index range yields `true`. -/
def cmpGeAux : Nat → List Nat → List Nat → Bool
  | 0, _, _ => true
  | Nat.succ k, xs, ys =>
    let x := xs.headD 0
    let y := ys.headD 0
    if x > y then true
    else if x < y then false
    else cmpGeAux k xs.tail ys.tail

/-- Component-wise `≥` over parsed versions, iterating over
`max (length aa) (length mm)` indices as the source loop does. -/
def cmpGe (aa mm : List Nat) : Bool := cmpGeAux (max aa.length mm.length) aa mm

/-- Model of `mc_version_ge` (main.rs 767-787). -/
def mc_version_ge (a min : Str) : Bool :=
  match parseVersion a, parseVersion min with
  | some aa, some mm => cmpGe aa mm
  | _, _ => false

/-- ASCII lowercasing of a single character, as in Rust `to_ascii_lowercase`. -/
def asciiLower (c : Char) : Char :=
  if 'A' ≤ c ∧ c ≤ 'Z' then Char.ofNat (c.toNat + 32) else c

/-- Model of Rust `str::eq_ignore_ascii_case`. -/
def eqIgnoreAsciiCase (a b : Str) : Bool := a.map asciiLower == b.map asciiLower

/-- Model of Rust `str::to_lowercase` on the ASCII hex strings the launcher
compares; the Rust function is Unicode-aware but agrees on ASCII. -/
def toLowerStr (l : Str) : Str := l.map asciiLower

/-- Model of `group.replace('.', "/")` in the Maven path builders: the
replacement string is a single character, so a character map is exact. -/
def replaceDotSlash (l : Str) : Str := l.map (fun c => if c = '.' then '/' else c)

/-!  §4.5 / C8: Maven coordinate translation (main.rs 1753-1807). -/

/-- Model of `maven_coord_to_repo_path` (main.rs 1753-1785): translate a
`group:artifact:version[:classifier][@extension]` coordinate to a Maven
repository path, with the extension defaulting to `jar`. -/
def maven_coord_to_repo_path (coord0 : Str) : Option Str :=
  let coord := trim coord0
  if coord.isEmpty then none else
  let pe : Str × Str :=
    match splitOnceChar '@' coord with
    | some (a, b) => if (trim b).isEmpty then (coord, "jar".toList) else (trim a, trim b)
    | none => (coord, "jar".toList)
  let left := pe.1
  let ext := pe.2
  let parts := splitOnChar ':' left
  if parts.length < 3 then none else
  let group := trim (parts.getD 0 [])
  let artifact := trim (parts.getD 1 [])
  let version := trim (parts.getD 2 [])
  if group.isEmpty || artifact.isEmpty || version.isEmpty then none else
  let classifier : Option Str :=
    if parts.length ≥ 4 then
      let c := trim (parts.getD 3 [])
      if c.isEmpty then none else some c
    else none
  let group_path := replaceDotSlash group
  let file_name :=
    match classifier with
    | some c => artifact ++ '-' :: version ++ '-' :: c ++ '.' :: ext
    | none => artifact ++ '-' :: version ++ '.' :: ext
  some (group_path ++ '/' :: artifact ++ '/' :: version ++ '/' :: file_name)

/-- Model of `maven_coord_to_repo_path_with_classifier` (main.rs 1787-1807):
like `maven_coord_to_repo_path` but with the classifier supplied by the
caller (any classifier inside the coordinate is ignored). -/
def maven_coord_to_repo_path_with_classifier (coord0 classifier0 : Str) : Option Str :=
  let coord := trim coord0
  let classifier := trim classifier0
  if coord.isEmpty || classifier.isEmpty then none else
  let pe : Str × Str :=
    match splitOnceChar '@' coord with
    | some (a, b) => if (trim b).isEmpty then (coord, "jar".toList) else (trim a, trim b)
    | none => (coord, "jar".toList)
  let left := pe.1
  let ext := pe.2
  let parts := splitOnChar ':' left
  if parts.length < 3 then none else
  let group := trim (parts.getD 0 [])
  let artifact := trim (parts.getD 1 [])
  let version := trim (parts.getD 2 [])
  if group.isEmpty || artifact.isEmpty || version.isEmpty then none else
  let group_path := replaceDotSlash group
  let file_name := artifact ++ '-' :: version ++ '-' :: classifier ++ '.' :: ext
  some (group_path ++ '/' :: artifact ++ '/' :: version ++ '/' :: file_name)

/-!  Data model (main.rs 1554-1698).  Rust `HashMap`s hold at most one value
per key and are consumed only through `get` or an order-insensitive
conjunction, so an association list with first-match lookup models them. -/

/-- First-match association-list lookup, modelling `HashMap::get`. -/
def alookup {α : Type} (m : List (Str × α)) (k : Str) : Option α :=
  match m.find? (fun p => p.1 == k) with
  | some p => some p.2
  | none => none

/-- Minimal JSON value model for `serde_json::Value` payloads carried by
argument templates (opaque for the merge claims). -/
inductive Json
  | jnull
  | jbool (b : Bool)
  | jnum (n : Int)
  | jstr (s : Str)
  | jarr (xs : List Json)
  | jobj (fields : List (Str × Json))

/-- Model of `Rule` (main.rs 1647-1656). -/
structure Rule where
  action : Str
  os : Option (List (Str × Str))
  features : Option (List (Str × Bool))
  deriving DecidableEq

/-- Model of `ArgValue` (main.rs 1640-1645). -/
inductive ArgValue
  | avStr (s : Str)
  | avObj (rules : Option (List Rule)) (value : Json)

/-- Model of `ArgsModern` (main.rs 1634-1638). -/
structure ArgsModern where
  game : List ArgValue
  jvm : List ArgValue

/-- Model of `AssetIndexRef` (main.rs 1658-1662). -/
structure AssetIndexRef where
  id : Str
  url : Str
  deriving DecidableEq

/-- Model of `DownloadItem` (main.rs 1667-1675). -/
structure DownloadItem where
  url : Str
  sha1 : Option Str
  size : Option Nat
  deriving DecidableEq

/-- Model of `DownloadsRoot` (main.rs 1664-1665). -/
structure DownloadsRoot where
  client : DownloadItem
  deriving DecidableEq

/-- Model of `LibraryArtifact` (main.rs 1697-1698). -/
structure LibraryArtifact where
  path : Str
  url : Str
  deriving DecidableEq

/-- Model of `LibraryDownloads` (main.rs 1691-1695). -/
structure LibraryDownloads where
  artifact : Option LibraryArtifact
  classifiers : Option (List (Str × LibraryArtifact))
  deriving DecidableEq

/-- Model of `Library` (main.rs 1677-1689). -/
structure Library where
  name : Option Str
  url : Option Str
  downloads : Option LibraryDownloads
  natives : Option (List (Str × Str))
  rules : Option (List Rule)
  deriving DecidableEq

/-- Model of `VersionJson` (main.rs 1554-1588). -/
structure VersionJson where
  id : Str
  inherits_from : Option Str
  main_class : Option Str
  assets_index : Option Str
  vtype : Option Str
  minecraft_arguments : Option Str
  arguments : Option ArgsModern
  libraries : List Library
  downloads : Option DownloadsRoot
  asset_index : Option AssetIndexRef

/-!  §4.2 / C6: profile merge (`merge_version_json`, main.rs 1590-1604). -/

/-- Model of `merge_version_json` (main.rs 1590-1604): each scalar field of
the child is replaced by the parent's value only when the child is `none`;
the library lists are concatenated parent-first. -/
def merge_version_json (parent child : VersionJson) : VersionJson :=
  { child with
    main_class := match child.main_class with
      | none => parent.main_class
      | some x => some x
    assets_index := match child.assets_index with
      | none => parent.assets_index
      | some x => some x
    vtype := match child.vtype with
      | none => parent.vtype
      | some x => some x
    minecraft_arguments := match child.minecraft_arguments with
      | none => parent.minecraft_arguments
      | some x => some x
    arguments := match child.arguments with
      | none => parent.arguments
      | some x => some x
    asset_index := match child.asset_index with
      | none => parent.asset_index
      | some x => some x
    downloads := match child.downloads with
      | none => parent.downloads
      | some x => some x
    libraries := parent.libraries ++ child.libraries }

/-!  §4.8 / C3: rule engine (`rules_allow`, main.rs 1700-1743). -/

/-- Whether a rule's OS and feature predicates both match, i.e. whether the
loop body reaches the `Apply rule` step instead of `continue`
(main.rs 1716-1732).  `osName` stands for the `cfg!`-selected compile-time
OS name of the source. -/
def rule_applies (osName : Str) (features : List (Str × Bool)) (r : Rule) : Bool :=
  (match r.os with
    | some os =>
      match alookup os "name".toList with
      | some name => name == osName
      | none => true
    | none => true)
  &&
  (match r.features with
    | some req => req.all (fun kv => ((alookup features kv.1).getD false) == kv.2)
    | none => true)

/-- One iteration of the `for r in rules` loop (main.rs 1716-1740). -/
def rule_step (osName : Str) (features : List (Str × Bool)) (allowed : Bool) (r : Rule) : Bool :=
  if !rule_applies osName features r then allowed
  else if r.action == "allow".toList then true
  else if r.action == "deny".toList then false
  else allowed

/-- Model of `rules_allow` (main.rs 1700-1743). -/
def rules_allow (osName : Str) (rules : Option (List Rule)) (features : List (Str × Bool)) : Bool :=
  match rules with
  | none => true
  | some rs =>
    let has_allow := rs.any (fun r => r.action == "allow".toList)
    rs.foldl (rule_step osName features) (!has_allow)

/-- Model of `features_for_loader` (main.rs 1816-1825). -/
def features_for_loader (loader : Str) : List (Str × Bool) :=
  if eqIgnoreAsciiCase loader "fabric".toList then [("is_modded".toList, true)]
  else [("is_modded".toList, false)]

/-!  §4.9 / C4: quick-play sanitization (main.rs 3079-3092). -/

/-- The filter of the sanitization loop: a game argument is stripped when it
starts with `--quickPlay` or contains the template text `${quickPlay`. -/
def qpMatch (a : Str) : Bool :=
  startsWithStr "--quickPlay".toList a || containsSeq "$\x7bquickPlay".toList a

/-- Model of the quick-play sanitization loop (main.rs 3079-3092): a matching
argument is dropped together with the immediately following token (when one
exists); all other tokens are kept in order. -/
def strip_quick_play : List Str → List Str
  | [] => []
  | a :: rest =>
    if qpMatch a then
      match rest with
      | [] => []
      | _ :: rest2 => strip_quick_play rest2
    else a :: strip_quick_play rest

/-!  §4.9 / C5: join-server injection (main.rs 3095-3121). -/

/-- Model of the one-click join-server block (main.rs 3095-3121).  `mcVersion`
is the resolved game version, `joinHost` the configured `join_server` value,
`gameArgs` the assembled (already sanitized) game argument list. -/
def inject_join_server (mcVersion : Str) (joinHost : Option Str) (gameArgs : List Str) : List Str :=
  match joinHost with
  | none => gameArgs
  | some host =>
    let hp : Str × Nat :=
      match splitOnceChar ':' host with
      | some (h, p) =>
        (h, match parseU16 p with
            | some pp => pp
            | none => 25565)
      | none => (host, 25565)
    let host_part := hp.1
    let port := hp.2
    if mc_version_ge mcVersion "1.20".toList then
      if gameArgs.any (fun a => a == "--quickPlayMultiplayer".toList) then gameArgs
      else gameArgs ++ ["--quickPlayMultiplayer".toList, host_part ++ ':' :: natToStr port]
    else
      let g1 :=
        if gameArgs.any (fun a => a == "--server".toList) then gameArgs
        else gameArgs ++ ["--server".toList, host_part]
      if g1.any (fun a => a == "--port".toList) then g1
      else g1 ++ ["--port".toList, natToStr port]

/-!  §4.5 / C2: per-library download planning (main.rs 2931-2989).

The loop body is modelled as a pure plan of download actions per library:
`downloadClasspath p` stands for downloading `libraries/<p>` and pushing it
onto `classpath_libs`; `downloadNative p` stands for downloading
`libraries/<p>` and extracting its shared libraries into the natives
directory, with no classpath push.  Cache-existence checks and the actual
I/O are elided; the selection logic is translated verbatim. -/

inductive LibAction
  | downloadClasspath (path : Str)
  | downloadNative (path : Str)
  deriving DecidableEq

/-- Model of one iteration of the library loop in `launch_game`
(main.rs 2931-2989).  `osName` is the compile-time OS name used by
`rules_allow`; note that the natives lookups on lines 2945 and 2974 use the
literal key `"windows"`. -/
def library_plan (osName : Str) (features : List (Str × Bool)) (lib : Library) : List LibAction :=
  if !rules_allow osName lib.rules features then []
  else
    match lib.downloads with
    | some dl =>
      let cp : List LibAction :=
        match dl.artifact with
        | some art => [LibAction.downloadClasspath art.path]
        | none => []
      let nat : List LibAction :=
        match lib.natives, dl.classifiers with
        | some natives, some classifiers =>
          match alookup natives "windows".toList with
          | some classifierKey =>
            match alookup classifiers classifierKey with
            | some nativeArt => [LibAction.downloadNative nativeArt.path]
            | none => []
          | none => []
        | _, _ => []
      cp ++ nat
    | none =>
      match lib.name with
      | some nm =>
        let cp : List LibAction :=
          match maven_coord_to_repo_path nm with
          | some repoPath => [LibAction.downloadClasspath repoPath]
          | none => []
        let nat : List LibAction :=
          match lib.natives with
          | some natives =>
            match alookup natives "windows".toList with
            | some classifierKey =>
              match maven_coord_to_repo_path_with_classifier nm classifierKey with
              | some nativePath => [LibAction.downloadNative nativePath]
              | none => []
            | none => []
          | none => []
        cp ++ nat
      | none => []

/-- Modelled from the spec: the lookup key the specification prescribes for
the native classifier, namely the current operating system's name
("windows"/"osx"/"linux").  Used only to compare the spec's claim against
the source's hard-coded `"windows"` lookup. -/
def native_lookup_spec (osName : Str) (lib : Library) : Option Str :=
  match lib.natives with
  | some natives => alookup natives osName
  | none => none

/-!  §5 / C1: file-placement traces.

Disk writes are modelled as traces of filesystem operations.  Paths use `/`
as separator (the OS separator in the source). -/

inductive FsOp
  | createFile (p : Str)
  | writeBytes (p : Str)
  | fsyncFile (p : Str)
  | renameFile (src dst : Str)
  | removeFile (p : Str)
  deriving DecidableEq

/-- Split a path at its last `/`: directory part (with trailing slash) and
file name. -/
def splitAtLastSlash (p : Str) : Str × Str :=
  match splitOnceChar '/' p.reverse with
  | some (revName, revDir) => (('/' :: revDir).reverse, revName.reverse)
  | none => ([], p)

/-- File stem of a file name, as in `Path::file_stem`: the portion before
the last `.`, unless the only `.` is the leading character. -/
def fileStem (fname : Str) : Str :=
  match splitOnceChar '.' fname.reverse with
  | some (_, beforeRev) => if beforeRev.isEmpty then fname else beforeRev.reverse
  | none => fname

/-- Model of `dest.with_extension("part")` (main.rs 870): replace the file
name's extension (if any) with `part`. -/
def with_extension_part (dest : Str) : Str :=
  let dn := splitAtLastSlash dest
  dn.1 ++ fileStem dn.2 ++ '.' :: "part".toList

/-- Filesystem trace of the success path of `download_to_progress`
(main.rs 841-947): create the `.part` sibling, stream the bytes into it,
`sync_all`, then rename onto the destination. `download_to`
(main.rs 800-838) produces the same trace. -/
def download_to_progress_ops (dest : Str) : List FsOp :=
  let tmp := with_extension_part dest
  [FsOp.createFile tmp, FsOp.writeBytes tmp, FsOp.fsyncFile tmp, FsOp.renameFile tmp dest]

/-- Filesystem trace of one asset-object download in the asset fan-out
(main.rs 2883): a single `fs::write` directly at the final destination. -/
def asset_object_write_ops (dest : Str) : List FsOp :=
  [FsOp.createFile dest, FsOp.writeBytes dest]

/-- Filesystem trace of the Fabric profile JSON save (main.rs 757): also a
direct `fs::write` at the final destination. -/
def fabric_profile_write_ops (dest : Str) : List FsOp :=
  [FsOp.createFile dest, FsOp.writeBytes dest]

/-- Whether a path carries the `.part` extension. -/
def isPartPath (p : Str) : Bool := endsWithStr ".part".toList p

/-- The claimed placement discipline for a destination, stated over a trace:
no create/write ever touches the final destination (everything goes to a
`.part` sibling), some fsync hits a `.part` path, and the trace ends by
renaming a `.part` path onto the destination. -/
def atomicWriteSeq (dest : Str) (ops : List FsOp) : Bool :=
  ops.all (fun op =>
    match op with
    | FsOp.createFile p => isPartPath p && !(p == dest)
    | FsOp.writeBytes p => isPartPath p && !(p == dest)
    | _ => true)
  && ops.any (fun op =>
    match op with
    | FsOp.fsyncFile p => isPartPath p
    | _ => false)
  && (match ops.getLast? with
    | some (FsOp.renameFile src dst) => isPartPath src && !(src == dest) && dst == dest
    | _ => false)

/-!  §4.3 / C9: client-jar integrity gate (main.rs 2747-2759, 29-35). -/

/-- The hash-mismatch message built on main.rs 2752-2755. -/
def hash_mismatch_message (expected actual : Str) : Str :=
  "Client jar hash mismatch (possible modified client).\nExpected: ".toList
    ++ expected ++ "\nActual:   ".toList ++ actual

/-- Model of the integrity block (main.rs 2747-2759).  `hashResult` is the
outcome of `sha1_file` on the client jar (`none` models an `Err`, which the
source silently skips).  The comparison lowercases both hex strings. -/
def verify_client_integrity (downloads : Option DownloadsRoot) (hashResult : Option Str) :
    Except Str Unit :=
  match downloads with
  | some dl =>
    match dl.client.sha1 with
    | some expected =>
      match hashResult with
      | some actual =>
        if !(toLowerStr actual == toLowerStr expected) then
          Except.error (hash_mismatch_message expected actual)
        else Except.ok ()
      | none => Except.ok ()
    | none => Except.ok ()
  | none => Except.ok ()

/-- The pipeline stages that follow the integrity block in `launch_game`
(main.rs 2761-3196), in source order. -/
def later_pipeline_stages : List Str :=
  ["merge".toList, "asset_index".toList, "assets".toList, "libraries".toList,
   "java".toList, "auth".toList, "arguments".toList, "spawn".toList]

/-- Outcome of the launch pipeline from the integrity block onwards. -/
structure ClientCheckOutcome where
  result : Except Str Unit
  laterStages : List Str
  fileOps : List FsOp

/-- Model of `launch_game` from the integrity block onwards
(main.rs 2747-3196): a mismatch propagates as an error via `?`/`return Err`,
so none of the later stages run; the block itself performs no filesystem
operation (in particular it never removes the jar), and the download retry
loop (main.rs 853-944) has already finished before the check runs, so a
mismatch is never re-downloaded.  The successful branch abstracts the later
stages' own file operations as an empty trace. -/
def pipeline_after_client_download (downloads : Option DownloadsRoot) (hashResult : Option Str) :
    ClientCheckOutcome :=
  match verify_client_integrity downloads hashResult with
  | Except.error e => { result := Except.error e, laterStages := [], fileOps := [] }
  | Except.ok _ => { result := Except.ok (), laterStages := later_pipeline_stages, fileOps := [] }

/-!  §4.11 / C10: OAuth code extraction (main.rs 1065-1088) and the pure
front half of `finish_microsoft_auth_code` (main.rs 1113-1136). -/

/-- Hex digit value, if any. -/
def hexVal (c : Char) : Option Nat :=
  if '0' ≤ c ∧ c ≤ '9' then some (c.toNat - 48)
  else if 'a' ≤ c ∧ c ≤ 'f' then some (c.toNat - 87)
  else if 'A' ≤ c ∧ c ≤ 'F' then some (c.toNat - 55)
  else none

/-- Character-level model of `urlencoding::decode`: `%XX` hex pairs decode
to the corresponding code point, malformed `%` sequences pass through.  The
crate's UTF-8 re-validation of the decoded bytes is not modelled; every
theorem below stays on branches that never reach this function. -/
def urlDecode : Str → Str
  | [] => []
  | '%' :: h1 :: h2 :: rest =>
    match hexVal h1, hexVal h2 with
    | some a, some b => Char.ofNat (16 * a + b) :: urlDecode rest
    | _, _ => '%' :: urlDecode (h1 :: h2 :: rest)
  | c :: rest => c :: urlDecode rest

/-- The `for part in q.split('&')` loop of `extract_query_param`
(main.rs 1079-1086): first key match wins; a missing `=` yields an empty
value. -/
def queryLookup (key : Str) : List Str → Option Str
  | [] => none
  | part :: rest =>
    let kv : Str × Str :=
      match splitOnceChar '=' part with
      | some (k, v) => (k, v)
      | none => (part, [])
    if eqIgnoreAsciiCase kv.1 key then some (urlDecode kv.2)
    else queryLookup key rest

/-- Model of `extract_query_param` (main.rs 1065-1088).  A bare pasted code
(for key `code`, no `?`, no `code=`, trimmed length at least 8 — Rust
measures bytes, which matches character count on ASCII) is accepted
verbatim; otherwise the query string after the first `?` (with any `#`
fragment cut off) is searched. -/
def extract_query_param (input key : Str) : Option Str :=
  let raw : Option Str :=
    if key == "code".toList && !containsChar '?' input && !containsSeq "code=".toList input then
      let trimmed := trim input
      if trimmed.length ≥ 8 then some trimmed else none
    else none
  match raw with
  | some v => some v
  | none =>
    let s0 := trim input
    let s :=
      match splitOnceChar '#' s0 with
      | some (a, _) => a
      | none => s0
    match splitOnceChar '?' s with
    | some (_, q) => queryLookup key (splitOnChar '&' q)
    | none => none

/-- Outcome of the pure front half of `finish_microsoft_auth_code`. -/
inductive AuthOutcome
  | errorMsg (err desc : Str)
  | noCode
  | staleLink
  | redeem (code : Str) (stateChecked : Bool)
  deriving DecidableEq

/-- Model of `finish_microsoft_auth_code` up to the network exchange
(main.rs 1113-1136): surface an `error` query parameter; otherwise extract
the `code` (failing when absent); then compare the `state` parameter with
the pending cookie only when both are present, rejecting a mismatch as a
stale link.  `stateChecked` records whether that comparison happened. -/
def finish_auth_decision (redirectUrl : Str) (pendingState : Option Str) : AuthOutcome :=
  match extract_query_param redirectUrl "error".toList with
  | some err =>
    AuthOutcome.errorMsg err ((extract_query_param redirectUrl "error_description".toList).getD [])
  | none =>
    match extract_query_param redirectUrl "code".toList with
    | none => AuthOutcome.noCode
    | some code =>
      match pendingState, extract_query_param redirectUrl "state".toList with
      | some expected, some got =>
        if !(expected == got) then AuthOutcome.staleLink
        else AuthOutcome.redeem code true
      | _, _ => AuthOutcome.redeem code false

/-!  Concrete fixtures used by witnesses and counterexamples. -/

/-- An `allow` rule restricted to macOS, for exercising the rule engine on
Windows. -/
def ruleAllowOsx : Rule :=
  { action := "allow".toList, os := some [("name".toList, "osx".toList)], features := none }

/-- A parent profile setting `mainClass` to `A`. -/
def vjParent : VersionJson :=
  { id := "parent".toList, inherits_from := none, main_class := some "A".toList,
    assets_index := none, vtype := none, minecraft_arguments := none, arguments := none,
    libraries := [], downloads := none, asset_index := none }

/-- A child profile setting `mainClass` to `B`. -/
def vjChild : VersionJson :=
  { id := "child".toList, inherits_from := none, main_class := some "B".toList,
    assets_index := none, vtype := none, minecraft_arguments := none, arguments := none,
    libraries := [], downloads := none, asset_index := none }

/-- A library whose `natives` map is keyed by `linux` only, with a matching
downloadable classifier — exactly the shape the spec says is handled on
Linux. -/
def libNativesLinux : Library :=
  { name := none, url := none,
    downloads := some
      { artifact := none,
        classifiers := some
          [("natives-linux".toList,
            { path := "org/lwjgl/lwjgl/3.3.3/lwjgl-3.3.3-natives-linux.jar".toList,
              url := "https://libraries.minecraft.net/org/lwjgl/lwjgl/3.3.3/lwjgl-3.3.3-natives-linux.jar".toList })] },
    natives := some [("linux".toList, "natives-linux".toList)],
    rules := none }

/-- The Windows-keyed counterpart of `libNativesLinux`. -/
def libNativesWindows : Library :=
  { name := none, url := none,
    downloads := some
      { artifact := none,
        classifiers := some
          [("natives-windows".toList,
            { path := "org/lwjgl/lwjgl/3.3.3/lwjgl-3.3.3-natives-windows.jar".toList,
              url := "https://libraries.minecraft.net/org/lwjgl/lwjgl/3.3.3/lwjgl-3.3.3-natives-windows.jar".toList })] },
    natives := some [("windows".toList, "natives-windows".toList)],
    rules := none }

/-- A `downloads` entry declaring a client sha1 of `cafef00d...`. -/
def downloadsCafe : DownloadsRoot :=
  { client :=
    { url := "https://piston-data.mojang.com/v1/objects/cafef00d/client.jar".toList,
      sha1 := some "cafef00dcafef00dcafef00dcafef00dcafef00d".toList,
      size := none } }

/-!  C8 statement helpers: the coordinate grammar of the claim. -/

/-- A component of a Maven coordinate as the grammar intends it: nonempty
and free of the separators `:` and `@` and of whitespace. -/
def cleanComp (l : Str) : Prop :=
  l ≠ [] ∧ ∀ c ∈ l, c ≠ ':' ∧ c ≠ '@' ∧ isWs c = false

/-- Assemble a coordinate `group:artifact:version[:classifier][@extension]`. -/
def mkCoord (g a v : Str) (cls ext : Option Str) : Str :=
  g ++ ':' :: (a ++ ':' :: ((v ++ (match cls with | some c => ':' :: c | none => []))
    ++ (match ext with | some e => '@' :: e | none => [])))

/-- The repository path the claim prescribes for a coordinate:
`group.replace('.','/')/artifact/version/artifact-version[-classifier].ext`
with the extension defaulting to `jar`. -/
def expectedRepoPath (g a v : Str) (cls ext : Option Str) : Str :=
  replaceDotSlash g ++ '/' :: a ++ '/' :: v ++ '/' :: a ++ '-' :: v
    ++ (match cls with | some c => '-' :: c | none => [])
    ++ '.' :: (ext.getD "jar".toList)

/-!  General lemmas about the string machinery. -/

theorem dropWhile_eq_self_of {p : Char → Bool} {l : Str} (h : ∀ c ∈ l, p c = false) :
    l.dropWhile p = l := by
  cases l with
  | nil => rfl
  | cons c rest => simp [List.dropWhile_cons, h c (List.mem_cons_self c rest)]

theorem trim_eq_self {l : Str} (h : ∀ c ∈ l, isWs c = false) : trim l = l := by
  unfold trim trimLeft trimRight
  rw [dropWhile_eq_self_of h]
  rw [dropWhile_eq_self_of (fun c hc => h c (List.mem_reverse.mp hc))]
  exact l.reverse_reverse

theorem mem_trim {x : Char} {l : Str} (h : x ∈ trim l) : x ∈ l := by
  unfold trim trimRight trimLeft at h
  rw [List.mem_reverse] at h
  have h2 := (List.dropWhile_sublist _).subset h
  rw [List.mem_reverse] at h2
  exact (List.dropWhile_sublist _).subset h2

theorem splitOnceChar_sepFree {sep : Char} {l : Str} (h : ∀ c ∈ l, ¬ c = sep) :
    splitOnceChar sep l = none := by
  induction l with
  | nil => rfl
  | cons c rest ih =>
    simp only [splitOnceChar]
    rw [if_neg (h c (List.mem_cons_self c rest))]
    rw [ih (fun x hx => h x (List.mem_cons_of_mem c hx))]

theorem splitOnceChar_append {sep : Char} {a b : Str} (h : ∀ c ∈ a, ¬ c = sep) :
    splitOnceChar sep (a ++ sep :: b) = some (a, b) := by
  induction a with
  | nil => simp [splitOnceChar]
  | cons c rest ih =>
    simp only [List.cons_append, splitOnceChar, List.append_eq]
    rw [if_neg (h c (List.mem_cons_self c rest))]
    rw [ih (fun x hx => h x (List.mem_cons_of_mem c hx))]

theorem splitOnceChar_some_eq {sep : Char} {l a b : Str}
    (h : splitOnceChar sep l = some (a, b)) : l = a ++ sep :: b := by
  induction l generalizing a b with
  | nil => simp [splitOnceChar] at h
  | cons c rest ih =>
    simp only [splitOnceChar] at h
    by_cases hc : c = sep
    · rw [if_pos hc] at h
      have h2 := Option.some.inj h
      have ha : a = [] := (congrArg Prod.fst h2).symm
      have hb : b = rest := (congrArg Prod.snd h2).symm
      subst ha; subst hb
      simp [hc]
    · rw [if_neg hc] at h
      cases hsplit : splitOnceChar sep rest with
      | none => rw [hsplit] at h; exact absurd h (by simp)
      | some p =>
        rw [hsplit] at h
        cases p with
        | mk a2 b2 =>
          have h2 := Option.some.inj h
          have ha : a = c :: a2 := (congrArg Prod.fst h2).symm
          have hb : b = b2 := (congrArg Prod.snd h2).symm
          subst ha; subst hb
          simp [ih hsplit]

theorem splitOnChar_sepFree {sep : Char} {l : Str} (h : ∀ c ∈ l, ¬ c = sep) :
    splitOnChar sep l = [l] := by
  induction l with
  | nil => rfl
  | cons c rest ih =>
    simp only [splitOnChar]
    rw [if_neg (h c (List.mem_cons_self c rest))]
    rw [ih (fun x hx => h x (List.mem_cons_of_mem c hx))]

theorem splitOnChar_append {sep : Char} {a b : Str} (h : ∀ c ∈ a, ¬ c = sep) :
    splitOnChar sep (a ++ sep :: b) = a :: splitOnChar sep b := by
  induction a with
  | nil => simp [splitOnChar]
  | cons c rest ih =>
    simp only [List.cons_append, splitOnChar, List.append_eq]
    rw [if_neg (h c (List.mem_cons_self c rest))]
    rw [ih (fun x hx => h x (List.mem_cons_of_mem c hx))]

theorem any_beq_true_iff_mem {x : Str} {l : List Str} :
    (l.any (fun a => a == x)) = true ↔ x ∈ l := by
  simp only [List.any_eq_true, beq_iff_eq]
  constructor
  · rintro ⟨a, ha, rfl⟩; exact ha
  · intro hx; exact ⟨x, hx, rfl⟩

theorem containsChar_false_forall {c : Char} {l : Str} (h : containsChar c l = false) :
    ∀ x ∈ l, ¬ x = c := by
  intro x hx hxc
  have hc : containsChar c l = true := by
    simp only [containsChar, List.any_eq_true, decide_eq_true_eq]
    exact ⟨x, hx, hxc⟩
  rw [h] at hc
  exact Bool.false_ne_true hc

/-!  C7: version comparison. -/

theorem cmpGeAux_self (k : Nat) : ∀ xs : List Nat, cmpGeAux k xs xs = true := by
  induction k with
  | zero => intro xs; rfl
  | succ k ih =>
    intro xs
    simp only [cmpGeAux, lt_irrefl, if_false, gt_iff_lt]
    exact ih xs.tail

/-- C7 (counterexample): the claim asserts `ge(a, a) = true` for *every*
version string, but the parser inside `mc_version_ge` rejects strings with
fewer than two dot-separated components, and a parse failure yields `false`;
at `a = "1"` the code returns `false`. -/
theorem C7_version_ge_counterexample : mc_version_ge "1".toList "1".toList = false := by decide

/-- C7 (amended): reflexivity of `mc_version_ge` holds for every version
string that the internal parser accepts (at least two dot-separated
components, each a `u32` numeral); the three concrete comparisons of the
claim hold as stated, with missing components read as zero. -/
theorem C7_version_ge :
    (∀ a xs, parseVersion a = some xs → mc_version_ge a a = true)
    ∧ mc_version_ge "1.20.5".toList "1.17".toList = true
    ∧ mc_version_ge "1.17".toList "1.20".toList = false
    ∧ mc_version_ge "1.21".toList "1.21.0".toList = true := by
  refine ⟨?_, by decide, by decide, by decide⟩
  intro a xs h
  unfold mc_version_ge
  rw [h]
  exact cmpGeAux_self _ xs

/-- C7 (witness): the reflexivity part applied at the parseable version
string `1.21.4`. -/
theorem C7_version_ge_witness :
    parseVersion "1.21.4".toList = some [1, 21, 4]
    ∧ mc_version_ge "1.21.4".toList "1.21.4".toList = true :=
  ⟨by decide, C7_version_ge.1 "1.21.4".toList [1, 21, 4] (by decide)⟩

/-!  C6: profile merge. -/

/-- C6: merging two version-JSON profiles keeps the child's value on every
scalar field whenever the child defines one and falls back to the parent's
value otherwise; the library list is exactly the parent's libraries followed
by the child's; and whenever any scalar field is set in both profiles with
different values, `merge(parent, child)` differs from `merge(child, parent)`. -/
theorem C6_merge :
    (∀ p c : VersionJson,
      ((∀ x, c.main_class = some x → (merge_version_json p c).main_class = some x)
        ∧ (c.main_class = none → (merge_version_json p c).main_class = p.main_class))
      ∧ ((∀ x, c.assets_index = some x → (merge_version_json p c).assets_index = some x)
        ∧ (c.assets_index = none → (merge_version_json p c).assets_index = p.assets_index))
      ∧ ((∀ x, c.vtype = some x → (merge_version_json p c).vtype = some x)
        ∧ (c.vtype = none → (merge_version_json p c).vtype = p.vtype))
      ∧ ((∀ x, c.minecraft_arguments = some x → (merge_version_json p c).minecraft_arguments = some x)
        ∧ (c.minecraft_arguments = none → (merge_version_json p c).minecraft_arguments = p.minecraft_arguments))
      ∧ ((∀ x, c.arguments = some x → (merge_version_json p c).arguments = some x)
        ∧ (c.arguments = none → (merge_version_json p c).arguments = p.arguments))
      ∧ ((∀ x, c.asset_index = some x → (merge_version_json p c).asset_index = some x)
        ∧ (c.asset_index = none → (merge_version_json p c).asset_index = p.asset_index))
      ∧ ((∀ x, c.downloads = some x → (merge_version_json p c).downloads = some x)
        ∧ (c.downloads = none → (merge_version_json p c).downloads = p.downloads))
      ∧ (merge_version_json p c).libraries = p.libraries ++ c.libraries)
    ∧ (∀ p c : VersionJson,
        p.main_class ≠ none → c.main_class ≠ none → p.main_class ≠ c.main_class →
        merge_version_json p c ≠ merge_version_json c p) := by
  constructor
  · intro p c
    refine ⟨⟨?_, ?_⟩, ⟨?_, ?_⟩, ⟨?_, ?_⟩, ⟨?_, ?_⟩, ⟨?_, ?_⟩, ⟨?_, ?_⟩, ⟨?_, ?_⟩, rfl⟩ <;>
      first
        | (intro x hx; simp [merge_version_json, hx])
        | (intro hx; simp [merge_version_json, hx])
  · intro p c hp hc hne heq
    cases hpc : p.main_class with
    | none => exact hp hpc
    | some a =>
      cases hcc : c.main_class with
      | none => exact hc hcc
      | some b =>
        have h1 : (merge_version_json p c).main_class = some b := by
          simp [merge_version_json, hcc]
        have h2 : (merge_version_json c p).main_class = some a := by
          simp [merge_version_json, hpc]
        rw [heq, h2] at h1
        rw [hpc, hcc, h1] at hne
        exact hne rfl

/-- C6 (witness): the non-commutativity part applied to two concrete
profiles whose `mainClass` differs, plus a scalar-override instance. -/
theorem C6_merge_witness :
    vjParent.main_class ≠ none
    ∧ vjChild.main_class ≠ none
    ∧ vjParent.main_class ≠ vjChild.main_class
    ∧ merge_version_json vjParent vjChild ≠ merge_version_json vjChild vjParent :=
  ⟨by decide, by decide, by decide,
    C6_merge.2 vjParent vjChild (by decide) (by decide) (by decide)⟩

/-!  C3: rule engine. -/

theorem foldl_rule_step_inapplicable {osName : Str} {features : List (Str × Bool)}
    (l : List Rule) (b : Bool) (h : ∀ r ∈ l, rule_applies osName features r = false) :
    l.foldl (rule_step osName features) b = b := by
  induction l generalizing b with
  | nil => rfl
  | cons r rest ih =>
    simp only [List.foldl_cons]
    rw [show rule_step osName features b r = b from by
      simp [rule_step, h r (List.mem_cons_self r rest)]]
    exact ih b (fun r2 hr2 => h r2 (List.mem_cons_of_mem r hr2))

/-- C3: the rule engine returns allow for an absent or empty rule list; for
any rule list containing at least one `allow` rule in which no rule's OS or
feature predicate matches the environment (under the empty feature map) it
returns deny; and the rules are folded in source order, so the last
applicable rule whose action is `allow` or `deny` determines the result. -/
theorem C3_rule_engine :
    (∀ osName features, rules_allow osName none features = true)
    ∧ (∀ osName features, rules_allow osName (some []) features = true)
    ∧ (∀ osName (rs : List Rule),
        (∃ r ∈ rs, r.action = "allow".toList) →
        (∀ r ∈ rs, rule_applies osName [] r = false) →
        rules_allow osName (some rs) [] = false)
    ∧ (∀ osName features (l1 l2 : List Rule) (r : Rule),
        rule_applies osName features r = true →
        (∀ r2 ∈ l2, rule_applies osName features r2 = false) →
        (r.action = "allow".toList ∨ r.action = "deny".toList) →
        rules_allow osName (some (l1 ++ r :: l2)) features
          = (r.action == "allow".toList)) := by
  refine ⟨fun _ _ => rfl, fun _ _ => rfl, ?_, ?_⟩
  · intro osName rs hex hall
    obtain ⟨r, hr, hact⟩ := hex
    have hany : rs.any (fun r => r.action == "allow".toList) = true := by
      simp only [List.any_eq_true, beq_iff_eq]
      exact ⟨r, hr, hact⟩
    simp only [rules_allow, hany, Bool.not_true]
    exact foldl_rule_step_inapplicable rs false hall
  · intro osName features l1 l2 r happ hl2 hact
    have hstep : ∀ b, rule_step osName features b r = (r.action == "allow".toList) := by
      intro b
      unfold rule_step
      rw [happ]
      cases hact with
      | inl h =>
        rw [h]
        have hb : ("allow".toList == "allow".toList) = true := by decide
        rw [hb]
        simp
      | inr h =>
        rw [h]
        have hb : ("deny".toList == "allow".toList) = false := by decide
        have hd : ("deny".toList == "deny".toList) = true := by decide
        rw [hb, hd]
        simp
    have key : rules_allow osName (some (l1 ++ r :: l2)) features
        = rule_step osName features
            (List.foldl (rule_step osName features)
              (!((l1 ++ r :: l2).any (fun r => r.action == "allow".toList))) l1) r := by
      simp only [rules_allow]
      rw [List.foldl_append, List.foldl_cons]
      exact foldl_rule_step_inapplicable l2 _ hl2
    rw [key, hstep]

/-- C3 (witness): a single macOS-only `allow` rule evaluated on Windows with
the empty feature map yields deny, and the last-rule part applied to a
one-rule list. -/
theorem C3_rule_engine_witness :
    rules_allow "windows".toList (some [ruleAllowOsx]) [] = false
    ∧ rules_allow "osx".toList (some [ruleAllowOsx]) [] = (ruleAllowOsx.action == "allow".toList) :=
  ⟨C3_rule_engine.2.2.1 "windows".toList [ruleAllowOsx]
      ⟨ruleAllowOsx, by decide, by decide⟩ (by decide),
    C3_rule_engine.2.2.2 "osx".toList [] [] [] ruleAllowOsx (by decide)
      (by intro r2 hr2; exact absurd hr2 (List.not_mem_nil r2)) (Or.inl (by decide))⟩

/-!  C4: quick-play sanitization. -/

theorem strip_quick_play_sublist : ∀ l : List Str, List.Sublist (strip_quick_play l) l
  | [] => by simp [strip_quick_play]
  | a :: rest => by
    unfold strip_quick_play
    by_cases h : qpMatch a = true
    · rw [if_pos h]
      match rest with
      | [] => exact List.nil_sublist _
      | b :: rest2 =>
        exact ((strip_quick_play_sublist rest2).cons b).cons a
    · rw [if_neg h]
      exact (strip_quick_play_sublist rest).cons₂ a

theorem strip_quick_play_no_match : ∀ (l : List Str) (x : Str),
    x ∈ strip_quick_play l → qpMatch x = false
  | [] => by simp [strip_quick_play]
  | a :: rest => by
    intro x hx
    unfold strip_quick_play at hx
    by_cases h : qpMatch a = true
    · rw [if_pos h] at hx
      match rest, hx with
      | b :: rest2, hx => exact strip_quick_play_no_match rest2 x hx
    · rw [if_neg h] at hx
      cases hx with
      | head => exact Bool.not_eq_true _ ▸ h
      | tail _ hmem => exact strip_quick_play_no_match rest x hmem

theorem strip_quick_play_clean : ∀ l : List Str,
    (∀ x ∈ l, qpMatch x = false) → strip_quick_play l = l
  | [] => fun _ => rfl
  | a :: rest => by
    intro h
    have ha := h a (List.mem_cons_self a rest)
    unfold strip_quick_play
    rw [if_neg (by rw [ha]; exact Bool.false_ne_true)]
    rw [strip_quick_play_clean rest (fun x hx => h x (List.mem_cons_of_mem a hx))]

/-- C4: the quick-play sanitizer only deletes tokens (the output is a
sublist of the input, so surviving tokens keep their order), no quick-play
token survives it, a list without quick-play tokens passes through
unchanged, and the concrete example of the claim holds:
`[--quickPlaySingleplayer, world, --foo, bar]` becomes `[--foo, bar]`. -/
theorem C4_quickplay_sanitization :
    (∀ l : List Str, List.Sublist (strip_quick_play l) l)
    ∧ (∀ (l : List Str) (x : Str), x ∈ strip_quick_play l → qpMatch x = false)
    ∧ (∀ l : List Str, (∀ x ∈ l, qpMatch x = false) → strip_quick_play l = l)
    ∧ strip_quick_play
        ["--quickPlaySingleplayer".toList, "world".toList, "--foo".toList, "bar".toList]
        = ["--foo".toList, "bar".toList] :=
  ⟨strip_quick_play_sublist, strip_quick_play_no_match, strip_quick_play_clean, by decide⟩

/-- C4 (witness): the pass-through part applied to the concrete argument
list `[--username, Alex]`. -/
theorem C4_quickplay_sanitization_witness :
    strip_quick_play ["--username".toList, "Alex".toList]
      = ["--username".toList, "Alex".toList] :=
  C4_quickplay_sanitization.2.2.1 ["--username".toList, "Alex".toList] (by decide)

/-!  C5: join-server injection. -/

theorem any_beq_false_of_not_mem {x : Str} {l : List Str} (h : ¬ x ∈ l) :
    (l.any (fun a => a == x)) = false := by
  cases hb : l.any (fun a => a == x) with
  | false => rfl
  | true => exact absurd (any_beq_true_iff_mem.mp hb) h

/-- C5: with no configured host the argument list is unchanged.  With a host
and game version at least 1.20: if `--quickPlayMultiplayer` is already
present nothing is appended, otherwise `--quickPlayMultiplayer <host>:<port>`
is appended, the port defaulting to 25565 when the host has no `:port`
suffix.  With a host and version below 1.20 (as decided by `mc_version_ge`),
`--server <host>` and `--port <port>` are appended when absent and nothing
is appended when both are present. -/
theorem C5_join_server :
    (∀ v args, inject_join_server v none args = args)
    ∧ (∀ v host args, mc_version_ge v "1.20".toList = true →
        "--quickPlayMultiplayer".toList ∈ args →
        inject_join_server v (some host) args = args)
    ∧ (∀ v host args, mc_version_ge v "1.20".toList = true →
        ¬ "--quickPlayMultiplayer".toList ∈ args →
        (∀ c ∈ host, ¬ c = ':') →
        inject_join_server v (some host) args
          = args ++ ["--quickPlayMultiplayer".toList, host ++ ':' :: natToStr 25565])
    ∧ (∀ v h p n args, mc_version_ge v "1.20".toList = true →
        ¬ "--quickPlayMultiplayer".toList ∈ args →
        (∀ c ∈ h, ¬ c = ':') →
        parseU16 p = some n →
        inject_join_server v (some (h ++ ':' :: p)) args
          = args ++ ["--quickPlayMultiplayer".toList, h ++ ':' :: natToStr n])
    ∧ (∀ v host args, mc_version_ge v "1.20".toList = false →
        ¬ "--server".toList ∈ args →
        ¬ "--port".toList ∈ args →
        (∀ c ∈ host, ¬ c = ':') →
        ¬ host = "--port".toList →
        inject_join_server v (some host) args
          = args ++ ["--server".toList, host, "--port".toList, natToStr 25565])
    ∧ (∀ v h p n args, mc_version_ge v "1.20".toList = false →
        ¬ "--server".toList ∈ args →
        ¬ "--port".toList ∈ args →
        (∀ c ∈ h, ¬ c = ':') →
        parseU16 p = some n →
        ¬ h = "--port".toList →
        inject_join_server v (some (h ++ ':' :: p)) args
          = args ++ ["--server".toList, h, "--port".toList, natToStr n])
    ∧ (∀ v host args, mc_version_ge v "1.20".toList = false →
        "--server".toList ∈ args →
        "--port".toList ∈ args →
        inject_join_server v (some host) args = args) := by
  refine ⟨fun _ _ => rfl, ?_, ?_, ?_, ?_, ?_, ?_⟩
  · intro v host args hge hmem
    simp at hge hmem
    simp [inject_join_server, hge, hmem]
  · intro v host args hge hmem hfree
    simp at hge hmem
    simp [inject_join_server, splitOnceChar_sepFree hfree, hge, hmem]
  · intro v h p n args hge hmem hfree hport
    simp at hge hmem
    simp [inject_join_server, splitOnceChar_append hfree, hport, hge, hmem]
  · intro v host args hge hs hp hfree hhost
    have hhost2 : ¬ "--port".toList = host := fun h2 => hhost h2.symm
    simp at hge hs hp hhost hhost2
    simp [inject_join_server, splitOnceChar_sepFree hfree, hge, hs, hp, hhost, hhost2]
  · intro v h p n args hge hs hp hfree hport hhost
    have hhost2 : ¬ "--port".toList = h := fun h2 => hhost h2.symm
    simp at hge hs hp hhost hhost2
    simp [inject_join_server, splitOnceChar_append hfree, hport, hge, hs, hp, hhost, hhost2]
  · intro v host args hge hs hp
    simp at hge hs hp
    simp [inject_join_server, hge, hs, hp]

/-- C5 (witness): the quick-play part applied at version 1.21.1 with host
`play.example.com` (no port), and the legacy part applied at version 1.19.4
with host `play.example.com:25570`. -/
theorem C5_join_server_witness :
    inject_join_server "1.21.1".toList (some "play.example.com".toList) []
      = ["--quickPlayMultiplayer".toList, "play.example.com".toList ++ ':' :: natToStr 25565]
    ∧ inject_join_server "1.19.4".toList (some ("play.example.com".toList ++ ':' :: "25570".toList)) []
      = ["--server".toList, "play.example.com".toList, "--port".toList, natToStr 25570] :=
  ⟨C5_join_server.2.2.1 "1.21.1".toList "play.example.com".toList [] (by decide)
      (by decide) (by decide),
    C5_join_server.2.2.2.2.2.1 "1.19.4".toList "play.example.com".toList "25570".toList 25570 []
      (by decide) (by decide) (by decide) (by decide) (by decide) (by decide)⟩

/-!  C9: client-jar integrity. -/

/-- C9: when the manifest declares a client sha1 and the re-hashed file
differs (case-insensitively), the pipeline from the integrity block onwards
fails with the hash-mismatch error, runs none of the later stages, and
performs no filesystem operation — in particular it deletes nothing and
issues no retry download. -/
theorem C9_integrity :
    ∀ (dl : DownloadsRoot) (expected actual : Str),
      dl.client.sha1 = some expected →
      ¬ toLowerStr actual = toLowerStr expected →
      (pipeline_after_client_download (some dl) (some actual)).result
          = Except.error (hash_mismatch_message expected actual)
      ∧ (pipeline_after_client_download (some dl) (some actual)).laterStages = []
      ∧ (pipeline_after_client_download (some dl) (some actual)).fileOps = [] := by
  intro dl expected actual hsha hne
  have hbeq : (toLowerStr actual == toLowerStr expected) = false :=
    beq_eq_false_iff_ne.mpr hne
  simp [pipeline_after_client_download, verify_client_integrity, hsha, hbeq]

/-- C9 (witness): the integrity theorem applied to a manifest declaring
`cafef00d…` while the file hashes to `deadbeef…`. -/
theorem C9_integrity_witness :
    downloadsCafe.client.sha1 = some "cafef00dcafef00dcafef00dcafef00dcafef00d".toList
    ∧ (pipeline_after_client_download (some downloadsCafe)
        (some "deadbeefdeadbeefdeadbeefdeadbeefdeadbeef".toList)).laterStages = [] :=
  ⟨by decide,
    (C9_integrity downloadsCafe "cafef00dcafef00dcafef00dcafef00dcafef00d".toList
      "deadbeefdeadbeefdeadbeefdeadbeefdeadbeef".toList (by decide) (by decide)).2.1⟩

/-!  C10: bare OAuth code acceptance. -/

theorem extract_none_of_no_question {input key : Str}
    (hkey : (key == "code".toList) = false)
    (hq : ∀ x ∈ input, ¬ x = '?') : extract_query_param input key = none := by
  unfold extract_query_param
  rw [hkey]
  simp only [Bool.false_and]
  have hq0 : ∀ x ∈ trim input, ¬ x = '?' := fun x hx => hq x (mem_trim hx)
  cases hsharp : splitOnceChar '#' (trim input) with
  | none =>
    simp only [hsharp]
    rw [splitOnceChar_sepFree hq0]
    rfl
  | some ab =>
    cases ab with
    | mk a b =>
      simp only [hsharp]
      have heq := splitOnceChar_some_eq hsharp
      have hqa : ∀ x ∈ a, ¬ x = '?' := fun x hx =>
        hq0 x (heq ▸ List.mem_append.mpr (Or.inl hx))
      rw [splitOnceChar_sepFree hqa]
      rfl

/-- C10: any input without `?` and without the substring `code=` whose
trimmed length is at least 8 is accepted verbatim as the OAuth code by
`extract_query_param`, and the finish-auth front half proceeds to redeem
that bare code without performing a state-cookie comparison, whatever the
pending state is. -/
theorem C10_bare_code :
    ∀ input : Str,
      containsChar '?' input = false →
      containsSeq "code=".toList input = false →
      8 ≤ (trim input).length →
      extract_query_param input "code".toList = some (trim input)
      ∧ ∀ pendingState, finish_auth_decision input pendingState
          = AuthOutcome.redeem (trim input) false := by
  intro input hq hc hlen
  have hextract : extract_query_param input "code".toList = some (trim input) := by
    unfold extract_query_param
    rw [show (("code".toList == "code".toList && !containsChar '?' input
        && !containsSeq "code=".toList input)) = true from by rw [hq, hc]; rfl]
    simp only [if_true]
    rw [if_pos hlen]
  refine ⟨hextract, ?_⟩
  intro pendingState
  have hqf : ∀ x ∈ input, ¬ x = '?' := containsChar_false_forall hq
  have herr : extract_query_param input "error".toList = none :=
    extract_none_of_no_question (by decide) hqf
  have hstate : extract_query_param input "state".toList = none :=
    extract_none_of_no_question (by decide) hqf
  unfold finish_auth_decision
  rw [herr, hextract, hstate]
  cases pendingState <;> rfl

/-- C10 (witness): the theorem applied to a bare pasted code. -/
theorem C10_bare_code_witness :
    extract_query_param "M.C507_BAY.2.U.deadbeef".toList "code".toList
      = some (trim "M.C507_BAY.2.U.deadbeef".toList)
    ∧ finish_auth_decision "M.C507_BAY.2.U.deadbeef".toList (some "pending-state".toList)
      = AuthOutcome.redeem (trim "M.C507_BAY.2.U.deadbeef".toList) false :=
  ⟨(C10_bare_code "M.C507_BAY.2.U.deadbeef".toList (by decide) (by decide) (by decide)).1,
    (C10_bare_code "M.C507_BAY.2.U.deadbeef".toList (by decide) (by decide) (by decide)).2
      (some "pending-state".toList)⟩

/-!  C2: native classifier lookup. -/

/-- C2 (counterexample): a library carrying a `natives` map keyed by `linux`
and a matching downloadable classifier, processed on Linux with passing
rules: the spec-prescribed OS-keyed lookup finds the classifier, yet the
code's plan downloads nothing at all, because the lookup key is hard-coded
to `"windows"` (main.rs 2945, 2974). -/
theorem C2_native_classifier_counterexample :
    rules_allow "linux".toList libNativesLinux.rules [] = true
    ∧ native_lookup_spec "linux".toList libNativesLinux = some "natives-linux".toList
    ∧ library_plan "linux".toList [] libNativesLinux = [] := by decide

/-- C2 (amended): the native-classifier lookup always uses the literal key
`"windows"`, independently of the current operating system.  When that key
is present and resolves — through `classifiers` for Mojang-shaped entries or
through the Maven coordinate for named entries — the classifier artifact is
downloaded and extracted with no classpath entry of its own; and the whole
per-library plan does not depend on the OS name except through rule
evaluation. -/
theorem C2_native_classifier :
    (∀ os1 os2 features lib,
        rules_allow os1 lib.rules features = rules_allow os2 lib.rules features →
        library_plan os1 features lib = library_plan os2 features lib)
    ∧ (∀ os features lib dl natives classifiers k art,
        lib.downloads = some dl →
        lib.natives = some natives →
        dl.classifiers = some classifiers →
        rules_allow os lib.rules features = true →
        alookup natives "windows".toList = some k →
        alookup classifiers k = some art →
        library_plan os features lib
          = (match dl.artifact with
              | some a => [LibAction.downloadClasspath a.path]
              | none => []) ++ [LibAction.downloadNative art.path]
        ∧ (∀ p, LibAction.downloadClasspath p ∈ library_plan os features lib →
            ∃ a, dl.artifact = some a ∧ p = a.path))
    ∧ (∀ os features lib nm natives k np,
        lib.downloads = none →
        lib.name = some nm →
        lib.natives = some natives →
        rules_allow os lib.rules features = true →
        alookup natives "windows".toList = some k →
        maven_coord_to_repo_path_with_classifier nm k = some np →
        library_plan os features lib
          = (match maven_coord_to_repo_path nm with
              | some rp => [LibAction.downloadClasspath rp]
              | none => []) ++ [LibAction.downloadNative np]) := by
  refine ⟨?_, ?_, ?_⟩
  · intro os1 os2 features lib h
    unfold library_plan
    rw [h]
  · intro os features lib dl natives classifiers k art hdl hnat hcls hrules hwin hart
    simp at hwin
    have hplan : library_plan os features lib
        = (match dl.artifact with
            | some a => [LibAction.downloadClasspath a.path]
            | none => []) ++ [LibAction.downloadNative art.path] := by
      simp [library_plan, hdl, hnat, hcls, hrules, hwin, hart]
    refine ⟨hplan, ?_⟩
    intro p hp
    rw [hplan] at hp
    cases List.mem_append.mp hp with
    | inl hin =>
      cases hda : dl.artifact with
      | none => rw [hda] at hin; exact absurd hin (List.not_mem_nil _)
      | some a =>
        rw [hda] at hin
        have := List.mem_singleton.mp hin
        exact ⟨a, rfl, LibAction.downloadClasspath.inj this⟩
    | inr hin =>
      have := List.mem_singleton.mp hin
      exact absurd this (by simp)
  · intro os features lib nm natives k np hdl hnm hnat hrules hwin hnp
    simp at hwin
    simp [library_plan, hdl, hnm, hnat, hrules, hwin, hnp]

/-- C2 (witness): the Mojang-shaped part applied on Windows to the
Windows-keyed library. -/
theorem C2_native_classifier_witness :
    library_plan "windows".toList [] libNativesWindows
      = [LibAction.downloadNative
          "org/lwjgl/lwjgl/3.3.3/lwjgl-3.3.3-natives-windows.jar".toList] :=
  (C2_native_classifier.2.1 "windows".toList [] libNativesWindows
    (match libNativesWindows.downloads with | some dl => dl | none => { artifact := none, classifiers := none })
    [("windows".toList, "natives-windows".toList)]
    [("natives-windows".toList,
      { path := "org/lwjgl/lwjgl/3.3.3/lwjgl-3.3.3-natives-windows.jar".toList,
        url := "https://libraries.minecraft.net/org/lwjgl/lwjgl/3.3.3/lwjgl-3.3.3-natives-windows.jar".toList })]
    "natives-windows".toList
    { path := "org/lwjgl/lwjgl/3.3.3/lwjgl-3.3.3-natives-windows.jar".toList,
      url := "https://libraries.minecraft.net/org/lwjgl/lwjgl/3.3.3/lwjgl-3.3.3-natives-windows.jar".toList }
    rfl rfl rfl (by decide) (by decide) (by decide)).1

/-!  C1: atomic file placement. -/

theorem isPrefixOf_append_self : ∀ a b : Str, (a.isPrefixOf (a ++ b)) = true := by
  intro a b
  induction a with
  | nil => simp [List.isPrefixOf]
  | cons c rest ih => simp [List.isPrefixOf, ih]

theorem isPartPath_with_extension_part (dest : Str) :
    isPartPath (with_extension_part dest) = true := by
  simp [with_extension_part, isPartPath, endsWithStr, List.reverse_append,
    isPrefixOf_append_self]

/-- C1 (counterexample): the claim covers asset objects, but an asset-object
download is placed with a single direct `fs::write` at the final destination
(main.rs 2883) — no `.part` sibling, no fsync, no rename — so the claimed
placement discipline fails on a concrete asset destination. -/
theorem C1_atomic_placement_counterexample :
    atomicWriteSeq "assets/objects/ab/abcd1234deadbeef".toList
      (asset_object_write_ops "assets/objects/ab/abcd1234deadbeef".toList) = false := by
  decide

/-- C1 (amended): every file placed through `download_to_progress` (version
JSON, client jar, asset index, library and native jars, runtime archive)
follows the claimed discipline — all bytes go to a `.part` sibling, an fsync
hits that sibling, and the trace ends by renaming it onto the destination —
for every destination that does not itself carry a `.part` extension.  Asset
objects are exempt: they are written directly (see the counterexample). -/
theorem C1_atomic_placement :
    ∀ dest : Str, isPartPath dest = false →
      atomicWriteSeq dest (download_to_progress_ops dest) = true := by
  intro dest hd
  have hp := isPartPath_with_extension_part dest
  have hne : (with_extension_part dest == dest) = false := by
    refine beq_eq_false_iff_ne.mpr ?_
    intro he
    rw [he] at hp
    rw [hp] at hd
    exact Bool.noConfusion hd
  simp [atomicWriteSeq, download_to_progress_ops, hp, hne]

/-- C1 (witness): the amended theorem applied to the client-jar destination. -/
theorem C1_atomic_placement_witness :
    isPartPath "versions/1.21.1/1.21.1.jar".toList = false
    ∧ atomicWriteSeq "versions/1.21.1/1.21.1.jar".toList
        (download_to_progress_ops "versions/1.21.1/1.21.1.jar".toList) = true :=
  ⟨by decide, C1_atomic_placement "versions/1.21.1/1.21.1.jar".toList (by decide)⟩

/-!  C8: Maven coordinate translation, the general grammar. -/

theorem isEmpty_false_of_ne_nil {l : Str} (h : l ≠ []) : l.isEmpty = false := by
  cases l with
  | nil => exact absurd rfl h
  | cons c rest => rfl

theorem forall_mem_append2 {P : Char → Prop} {l1 l2 : Str}
    (h1 : ∀ c ∈ l1, P c) (h2 : ∀ c ∈ l2, P c) : ∀ c ∈ l1 ++ l2, P c := by
  intro c hc
  cases List.mem_append.mp hc with
  | inl h => exact h1 c h
  | inr h => exact h2 c h

theorem forall_mem_cons2 {P : Char → Prop} {c0 : Char} {l : Str}
    (h0 : P c0) (h : ∀ c ∈ l, P c) : ∀ c ∈ c0 :: l, P c := by
  intro c hc
  cases List.mem_cons.mp hc with
  | inl h2 => exact h2 ▸ h0
  | inr h2 => exact h c h2

theorem splitOnChar_three (g a v : Str)
    (hg : ∀ c ∈ g, ¬ c = ':') (ha : ∀ c ∈ a, ¬ c = ':') (hv : ∀ c ∈ v, ¬ c = ':') :
    splitOnChar ':' (g ++ ':' :: (a ++ ':' :: v)) = [g, a, v] := by
  rw [splitOnChar_append hg, splitOnChar_append ha, splitOnChar_sepFree hv]

theorem splitOnChar_four (g a v c0 : Str)
    (hg : ∀ c ∈ g, ¬ c = ':') (ha : ∀ c ∈ a, ¬ c = ':') (hv : ∀ c ∈ v, ¬ c = ':')
    (hc : ∀ c ∈ c0, ¬ c = ':') :
    splitOnChar ':' (g ++ ':' :: (a ++ ':' :: (v ++ ':' :: c0))) = [g, a, v, c0] := by
  rw [splitOnChar_append hg, splitOnChar_append ha, splitOnChar_append hv,
    splitOnChar_sepFree hc]

theorem maven_case_nn (g a v : Str)
    (hg : cleanComp g) (ha : cleanComp a) (hv : cleanComp v) :
    maven_coord_to_repo_path (mkCoord g a v none none)
      = some (expectedRepoPath g a v none none) := by
  obtain ⟨hgne, hgp⟩ := hg
  obtain ⟨hane, hap⟩ := ha
  obtain ⟨hvne, hvp⟩ := hv
  have hshape : mkCoord g a v none none = g ++ ':' :: (a ++ ':' :: v) := by
    unfold mkCoord; simp
  have hws : ∀ c ∈ mkCoord g a v none none, isWs c = false := by
    rw [hshape]
    exact forall_mem_append2 (fun c hc => (hgp c hc).2.2)
      (forall_mem_cons2 (by decide)
        (forall_mem_append2 (fun c hc => (hap c hc).2.2)
          (forall_mem_cons2 (by decide) (fun c hc => (hvp c hc).2.2))))
  have hnoAt : ∀ c ∈ mkCoord g a v none none, ¬ c = '@' := by
    rw [hshape]
    exact forall_mem_append2 (fun c hc => (hgp c hc).2.1)
      (forall_mem_cons2 (by decide)
        (forall_mem_append2 (fun c hc => (hap c hc).2.1)
          (forall_mem_cons2 (by decide) (fun c hc => (hvp c hc).2.1))))
  have hne : mkCoord g a v none none ≠ [] := by
    rw [hshape]
    cases g with
    | nil => exact absurd rfl hgne
    | cons x xs => simp
  have hAt : splitOnceChar '@' (mkCoord g a v none none) = none :=
    splitOnceChar_sepFree hnoAt
  have hparts : splitOnChar ':' (mkCoord g a v none none) = [g, a, v] := by
    rw [hshape]
    exact splitOnChar_three g a v (fun c hc => (hgp c hc).1) (fun c hc => (hap c hc).1)
      (fun c hc => (hvp c hc).1)
  simp only [maven_coord_to_repo_path, trim_eq_self hws, hAt,
    isEmpty_false_of_ne_nil hne, hparts, List.length_cons, List.length_nil, List.getD,
    List.get?, trim_eq_self (fun c hc => (hgp c hc).2.2),
    trim_eq_self (fun c hc => (hap c hc).2.2), trim_eq_self (fun c hc => (hvp c hc).2.2),
    isEmpty_false_of_ne_nil hgne, isEmpty_false_of_ne_nil hane, isEmpty_false_of_ne_nil hvne]
  simp [expectedRepoPath, List.append_assoc]
  rw [trim_eq_self (fun c hc => (hgp c hc).2.2), trim_eq_self (fun c hc => (hap c hc).2.2),
    trim_eq_self (fun c hc => (hvp c hc).2.2)]
  exact ⟨⟨⟨hgne, hane⟩, hvne⟩, rfl⟩

theorem maven_case_cn (g a v c0 : Str)
    (hg : cleanComp g) (ha : cleanComp a) (hv : cleanComp v) (hc : cleanComp c0) :
    maven_coord_to_repo_path (mkCoord g a v (some c0) none)
      = some (expectedRepoPath g a v (some c0) none) := by
  obtain ⟨hgne, hgp⟩ := hg
  obtain ⟨hane, hap⟩ := ha
  obtain ⟨hvne, hvp⟩ := hv
  obtain ⟨hcne, hcp⟩ := hc
  have hshape : mkCoord g a v (some c0) none = g ++ ':' :: (a ++ ':' :: (v ++ ':' :: c0)) := by
    unfold mkCoord; simp
  have hws : ∀ c ∈ mkCoord g a v (some c0) none, isWs c = false := by
    rw [hshape]
    exact forall_mem_append2 (fun c hc => (hgp c hc).2.2)
      (forall_mem_cons2 (by decide)
        (forall_mem_append2 (fun c hc => (hap c hc).2.2)
          (forall_mem_cons2 (by decide)
            (forall_mem_append2 (fun c hc => (hvp c hc).2.2)
              (forall_mem_cons2 (by decide) (fun c hc => (hcp c hc).2.2))))))
  have hnoAt : ∀ c ∈ mkCoord g a v (some c0) none, ¬ c = '@' := by
    rw [hshape]
    exact forall_mem_append2 (fun c hc => (hgp c hc).2.1)
      (forall_mem_cons2 (by decide)
        (forall_mem_append2 (fun c hc => (hap c hc).2.1)
          (forall_mem_cons2 (by decide)
            (forall_mem_append2 (fun c hc => (hvp c hc).2.1)
              (forall_mem_cons2 (by decide) (fun c hc => (hcp c hc).2.1))))))
  have hne : mkCoord g a v (some c0) none ≠ [] := by
    rw [hshape]
    cases g with
    | nil => exact absurd rfl hgne
    | cons x xs => simp
  have hAt : splitOnceChar '@' (mkCoord g a v (some c0) none) = none :=
    splitOnceChar_sepFree hnoAt
  have hparts : splitOnChar ':' (mkCoord g a v (some c0) none) = [g, a, v, c0] := by
    rw [hshape]
    exact splitOnChar_four g a v c0 (fun c hc => (hgp c hc).1) (fun c hc => (hap c hc).1)
      (fun c hc => (hvp c hc).1) (fun c hc => (hcp c hc).1)
  simp only [maven_coord_to_repo_path, trim_eq_self hws, hAt,
    isEmpty_false_of_ne_nil hne, hparts, List.length_cons, List.length_nil, List.getD,
    List.get?, isEmpty_false_of_ne_nil hgne, isEmpty_false_of_ne_nil hane,
    isEmpty_false_of_ne_nil hvne]
  simp [expectedRepoPath, List.append_assoc,
    trim_eq_self (fun c hc => (hgp c hc).2.2), trim_eq_self (fun c hc => (hap c hc).2.2),
    trim_eq_self (fun c hc => (hvp c hc).2.2), trim_eq_self (fun c hc => (hcp c hc).2.2),
    isEmpty_false_of_ne_nil hgne, isEmpty_false_of_ne_nil hane,
    isEmpty_false_of_ne_nil hvne, isEmpty_false_of_ne_nil hcne, hgne, hane, hvne, hcne]

theorem maven_case_ne (g a v e : Str)
    (hg : cleanComp g) (ha : cleanComp a) (hv : cleanComp v) (he : cleanComp e) :
    maven_coord_to_repo_path (mkCoord g a v none (some e))
      = some (expectedRepoPath g a v none (some e)) := by
  obtain ⟨hgne, hgp⟩ := hg
  obtain ⟨hane, hap⟩ := ha
  obtain ⟨hvne, hvp⟩ := hv
  obtain ⟨hene, hep⟩ := he
  have hLws : ∀ c ∈ g ++ ':' :: (a ++ ':' :: v), isWs c = false :=
    forall_mem_append2 (fun c hc => (hgp c hc).2.2)
      (forall_mem_cons2 (by decide)
        (forall_mem_append2 (fun c hc => (hap c hc).2.2)
          (forall_mem_cons2 (by decide) (fun c hc => (hvp c hc).2.2))))
  have hLnoAt : ∀ c ∈ g ++ ':' :: (a ++ ':' :: v), ¬ c = '@' :=
    forall_mem_append2 (fun c hc => (hgp c hc).2.1)
      (forall_mem_cons2 (by decide)
        (forall_mem_append2 (fun c hc => (hap c hc).2.1)
          (forall_mem_cons2 (by decide) (fun c hc => (hvp c hc).2.1))))
  have hshape : mkCoord g a v none (some e) = (g ++ ':' :: (a ++ ':' :: v)) ++ '@' :: e := by
    unfold mkCoord; simp [List.append_assoc]
  have hws : ∀ c ∈ mkCoord g a v none (some e), isWs c = false := by
    rw [hshape]
    exact forall_mem_append2 hLws
      (forall_mem_cons2 (by decide) (fun c hc => (hep c hc).2.2))
  have hne : mkCoord g a v none (some e) ≠ [] := by
    rw [hshape]
    cases g with
    | nil => exact absurd rfl hgne
    | cons x xs => simp
  have hAt : splitOnceChar '@' (mkCoord g a v none (some e))
      = some (g ++ ':' :: (a ++ ':' :: v), e) := by
    rw [hshape]
    exact splitOnceChar_append hLnoAt
  have hparts : splitOnChar ':' (g ++ ':' :: (a ++ ':' :: v)) = [g, a, v] :=
    splitOnChar_three g a v (fun c hc => (hgp c hc).1) (fun c hc => (hap c hc).1)
      (fun c hc => (hvp c hc).1)
  simp only [maven_coord_to_repo_path, trim_eq_self hws, hAt,
    isEmpty_false_of_ne_nil hne, trim_eq_self (fun c hc => (hep c hc).2.2),
    isEmpty_false_of_ne_nil hene, Bool.false_eq_true, if_false, trim_eq_self hLws,
    hparts, List.length_cons, List.length_nil, List.getD, List.get?]
  simp [expectedRepoPath, List.append_assoc,
    trim_eq_self (fun c hc => (hgp c hc).2.2), trim_eq_self (fun c hc => (hap c hc).2.2),
    trim_eq_self (fun c hc => (hvp c hc).2.2),
    isEmpty_false_of_ne_nil hgne, isEmpty_false_of_ne_nil hane,
    isEmpty_false_of_ne_nil hvne, hgne, hane, hvne]

theorem maven_case_ce (g a v c0 e : Str)
    (hg : cleanComp g) (ha : cleanComp a) (hv : cleanComp v) (hc : cleanComp c0)
    (he : cleanComp e) :
    maven_coord_to_repo_path (mkCoord g a v (some c0) (some e))
      = some (expectedRepoPath g a v (some c0) (some e)) := by
  obtain ⟨hgne, hgp⟩ := hg
  obtain ⟨hane, hap⟩ := ha
  obtain ⟨hvne, hvp⟩ := hv
  obtain ⟨hcne, hcp⟩ := hc
  obtain ⟨hene, hep⟩ := he
  have hLws : ∀ c ∈ g ++ ':' :: (a ++ ':' :: (v ++ ':' :: c0)), isWs c = false :=
    forall_mem_append2 (fun c hc => (hgp c hc).2.2)
      (forall_mem_cons2 (by decide)
        (forall_mem_append2 (fun c hc => (hap c hc).2.2)
          (forall_mem_cons2 (by decide)
            (forall_mem_append2 (fun c hc => (hvp c hc).2.2)
              (forall_mem_cons2 (by decide) (fun c hc => (hcp c hc).2.2))))))
  have hLnoAt : ∀ c ∈ g ++ ':' :: (a ++ ':' :: (v ++ ':' :: c0)), ¬ c = '@' :=
    forall_mem_append2 (fun c hc => (hgp c hc).2.1)
      (forall_mem_cons2 (by decide)
        (forall_mem_append2 (fun c hc => (hap c hc).2.1)
          (forall_mem_cons2 (by decide)
            (forall_mem_append2 (fun c hc => (hvp c hc).2.1)
              (forall_mem_cons2 (by decide) (fun c hc => (hcp c hc).2.1))))))
  have hshape : mkCoord g a v (some c0) (some e)
      = (g ++ ':' :: (a ++ ':' :: (v ++ ':' :: c0))) ++ '@' :: e := by
    unfold mkCoord; simp [List.append_assoc]
  have hws : ∀ c ∈ mkCoord g a v (some c0) (some e), isWs c = false := by
    rw [hshape]
    exact forall_mem_append2 hLws
      (forall_mem_cons2 (by decide) (fun c hc => (hep c hc).2.2))
  have hne : mkCoord g a v (some c0) (some e) ≠ [] := by
    rw [hshape]
    cases g with
    | nil => exact absurd rfl hgne
    | cons x xs => simp
  have hAt : splitOnceChar '@' (mkCoord g a v (some c0) (some e))
      = some (g ++ ':' :: (a ++ ':' :: (v ++ ':' :: c0)), e) := by
    rw [hshape]
    exact splitOnceChar_append hLnoAt
  have hparts : splitOnChar ':' (g ++ ':' :: (a ++ ':' :: (v ++ ':' :: c0))) = [g, a, v, c0] :=
    splitOnChar_four g a v c0 (fun c hc => (hgp c hc).1) (fun c hc => (hap c hc).1)
      (fun c hc => (hvp c hc).1) (fun c hc => (hcp c hc).1)
  simp only [maven_coord_to_repo_path, trim_eq_self hws, hAt,
    isEmpty_false_of_ne_nil hne, trim_eq_self (fun c hc => (hep c hc).2.2),
    isEmpty_false_of_ne_nil hene, Bool.false_eq_true, if_false, trim_eq_self hLws,
    hparts, List.length_cons, List.length_nil, List.getD, List.get?]
  simp [expectedRepoPath, List.append_assoc,
    trim_eq_self (fun c hc => (hgp c hc).2.2), trim_eq_self (fun c hc => (hap c hc).2.2),
    trim_eq_self (fun c hc => (hvp c hc).2.2), trim_eq_self (fun c hc => (hcp c hc).2.2),
    isEmpty_false_of_ne_nil hgne, isEmpty_false_of_ne_nil hane,
    isEmpty_false_of_ne_nil hvne, isEmpty_false_of_ne_nil hcne, hgne, hane, hvne, hcne]

/-- C8: for every coordinate of the grammar
`group:artifact:version[:classifier][@extension]` (components nonempty and
free of `:`, `@` and whitespace), the translation replaces dots in the group
with slashes, defaults the extension to `jar`, and produces
`group/artifact/version/artifact-version[-classifier].ext`; the two concrete
examples of the claim evaluate as stated. -/
theorem C8_maven_path :
    (∀ (g a v : Str) (cls ext : Option Str),
      cleanComp g → cleanComp a → cleanComp v →
      (∀ c0, cls = some c0 → cleanComp c0) →
      (∀ e, ext = some e → cleanComp e) →
      maven_coord_to_repo_path (mkCoord g a v cls ext)
        = some (expectedRepoPath g a v cls ext))
    ∧ maven_coord_to_repo_path "net.fabricmc:fabric-loader:0.15.11".toList
        = some "net/fabricmc/fabric-loader/0.15.11/fabric-loader-0.15.11.jar".toList
    ∧ maven_coord_to_repo_path "org.lwjgl:lwjgl:3.3.3:natives-windows@jar".toList
        = some "org/lwjgl/lwjgl/3.3.3/lwjgl-3.3.3-natives-windows.jar".toList := by
  refine ⟨?_, by decide, by decide⟩
  intro g a v cls ext hg ha hv hcls hext
  cases cls with
  | none =>
    cases ext with
    | none => exact maven_case_nn g a v hg ha hv
    | some e => exact maven_case_ne g a v e hg ha hv (hext e rfl)
  | some c0 =>
    cases ext with
    | none => exact maven_case_cn g a v c0 hg ha hv (hcls c0 rfl)
    | some e => exact maven_case_ce g a v c0 e hg ha hv (hcls c0 rfl) (hext e rfl)

/-- C8 (witness): the grammar part applied to the components of
`net.fabricmc:fabric-loader:0.15.11`. -/
theorem C8_maven_path_witness :
    maven_coord_to_repo_path
        (mkCoord "net.fabricmc".toList "fabric-loader".toList "0.15.11".toList none none)
      = some (expectedRepoPath "net.fabricmc".toList "fabric-loader".toList
          "0.15.11".toList none none) :=
  C8_maven_path.1 "net.fabricmc".toList "fabric-loader".toList "0.15.11".toList none none
    (by constructor <;> decide) (by constructor <;> decide) (by constructor <;> decide)
    (fun c0 hc0 => Option.noConfusion hc0) (fun e he => Option.noConfusion he)

end MegaClient
